import Mathlib

/-!
# News Consolidation Engine — shallow embedding

A shallow embedding of the news consolidation engine of `openclaw-news`
(the code block `NEWS CONSOLIDATION ALGORITHM` of the repository:
`STOP_WORDS`, `preprocessText`, `jaccardSimilarity`, `groupSimilarHeadlines`,
`consolidateClusters`, `scoreItems`, `consolidateNews`), together with
theorems settling the specification's claims about it.

Modelling conventions:
* JavaScript numbers are embedded as `ℚ` (the scores and thresholds in play
  are exact small rationals; no claim hinges on binary floating point
  rounding).
* JavaScript `Set` objects are embedded as their insertion-ordered lists of
  distinct elements (`jsSetArray`): a JS `Set` built from a list keeps the
  first occurrence of each element in insertion order, and the source only
  iterates, filters and sizes its sets.
* `Array.prototype.reduce` on an empty array throws, so per-cluster
  consolidation returns an `Option`.
* The imperative index-and-assigned-set loop of `groupSimilarHeadlines` is
  embedded as a recursion: the first still-unassigned item seeds a cluster,
  the later unassigned items are split by similarity to that seed into the
  members of the cluster and the remainder (orders preserved), and the loop
  continues on the remainder.  A fuel argument (`groupAux`) makes the
  recursion structural; `groupAux_congr` shows the fuel is irrelevant once it
  is at least the list's length.
-/

/-- The fixed stop-word set of the source (`STOP_WORDS`), in its order. -/
def STOP_WORDS : List String :=
  ["the", "a", "an", "is", "are", "was", "were", "be", "been", "being",
   "have", "has", "had", "do", "does", "did", "will", "would", "could",
   "should", "may", "might", "must", "shall", "can", "need", "dare",
   "to", "of", "in", "for", "on", "with", "at", "by", "from", "as",
   "into", "through", "during", "before", "after", "above", "below",
   "between", "under", "again", "further", "then", "once", "here",
   "there", "when", "where", "why", "how", "all", "each", "few",
   "more", "most", "other", "some", "such", "no", "nor", "not", "only",
   "own", "same", "so", "than", "too", "very", "just", "also", "now",
   "and", "but", "or", "yet", "if", "because", "although", "while",
   "that", "which", "who", "whom", "this", "these", "those", "it"]

/-- JavaScript regexp class `\w`: ASCII letters, digits and underscore. -/
def isWordChar (c : Char) : Bool :=
  c.isAlphanum || c == '_'

/-- JavaScript regexp class `\s`: ASCII whitespace and the Unicode space
characters the ECMAScript grammar lists. -/
def isSpaceChar (c : Char) : Bool :=
  c == ' ' || c == '\t' || c == '\n' || c == '\r' ||
  c.toNat == 0x0b || c.toNat == 0x0c || c.toNat == 0xa0 ||
  c.toNat == 0x1680 || (0x2000 ≤ c.toNat && c.toNat ≤ 0x200a) ||
  c.toNat == 0x2028 || c.toNat == 0x2029 || c.toNat == 0x202f ||
  c.toNat == 0x205f || c.toNat == 0x3000 || c.toNat == 0xfeff

/-- `text.split(/\s+/)` restricted to its non-empty pieces: the maximal runs
of non-whitespace characters, in order.  (JavaScript `split(/\s+/)` can also
emit one empty string for leading whitespace; every empty piece is removed by
the `length > 2` filter of `preprocessText` either way, so the final token
lists agree.)  `acc` holds the current run, reversed. -/
def splitWsAux (acc : List Char) : List Char → List (List Char)
  | [] => if acc.isEmpty then [] else [acc.reverse]
  | c :: cs =>
      if isSpaceChar c then
        if acc.isEmpty then splitWsAux [] cs else acc.reverse :: splitWsAux [] cs
      else
        splitWsAux (c :: acc) cs

/-- `preprocessText` of the source: lowercase, strip every character that is
neither `\w` nor `\s`, split on whitespace, keep the tokens longer than two
characters that are not stop words.  `Char.toLower` folds the ASCII range, as
the headlines in play are ASCII. -/
def preprocessText (text : String) : List String :=
  let cleaned := (text.data.map Char.toLower).filter fun c => isWordChar c || isSpaceChar c
  ((splitWsAux [] cleaned).map fun w => String.mk w).filter
    fun word => decide (2 < word.length) && ! decide (word ∈ STOP_WORDS)

/-- `Array.from(new Set(l))`: deduplication keeping the first occurrence of
each element, in insertion order.  `seen` holds the values already emitted.
A JavaScript `Set` is exactly its insertion-ordered list of distinct
elements, so this also embeds `new Set(l)` itself wherever the set is only
iterated, filtered or sized. -/
def jsSetArray (seen : List String) : List String → List String
  | [] => []
  | a :: as =>
      if a ∈ seen then jsSetArray seen as else a :: jsSetArray (a :: seen) as

/-- `jaccardSimilarity` of the source: the two token sequences collapse to
sets, `intersection = new Set([...set1].filter(x => set2.has(x)))`,
`union = new Set([...set1, ...set2])`, and the result is
`|intersection| / |union|`, or `0` when the union is empty (the source
guards `union.size ? ... : 0`). -/
def jaccardSimilarity (tokens1 tokens2 : List String) : ℚ :=
  let set1 := jsSetArray [] tokens1
  let set2 := jsSetArray [] tokens2
  let inter := jsSetArray [] (set1.filter fun x => decide (x ∈ set2))
  let union := jsSetArray [] (set1 ++ set2)
  if union.length = 0 then 0 else (inter.length : ℚ) / (union.length : ℚ)

/-- One fetched headline with its source attribution (the objects
`{ source, headline }` that `consolidateNews` builds). -/
structure HeadlineItem where
  source : String
  headline : String
deriving DecidableEq, Repr

/-- Similarity of two items' headlines, as `groupSimilarHeadlines` computes
it: Jaccard similarity of the preprocessed token lists. -/
def itemSimilarity (a b : HeadlineItem) : ℚ :=
  jaccardSimilarity (preprocessText a.headline) (preprocessText b.headline)

/-- The loop of `groupSimilarHeadlines` with explicit fuel.  The head of the
list is the first still-unassigned index `i`: it seeds a cluster, every later
unassigned item whose similarity to the seed reaches the threshold joins the
cluster (in order), and the loop continues on the rest (in order).  The fuel
only makes the recursion structural: it never runs out when it starts at the
list's length (`groupAux_congr`). -/
def groupAux (threshold : ℚ) : Nat → List HeadlineItem → List (List HeadlineItem)
  | _, [] => []
  | 0, _ :: _ => []
  | fuel + 1, x :: xs =>
      (x :: xs.filter fun y => decide (threshold ≤ itemSimilarity x y)) ::
        groupAux threshold fuel (xs.filter fun y => ! decide (threshold ≤ itemSimilarity x y))

/-- `groupSimilarHeadlines` of the source, with the threshold
(`config.consolidation?.similarityThreshold ?? 0.5`) passed explicitly. -/
def groupSimilarHeadlines (threshold : ℚ) (allItems : List HeadlineItem) :
    List (List HeadlineItem) :=
  groupAux threshold allItems.length allItems

/-- One consolidated story: representative headline, contributing sources,
and their count (`{ headline, sources, sourceCount }`). -/
structure ConsolidatedItem where
  headline : String
  sources : List String
  sourceCount : Nat
deriving DecidableEq, Repr

/-- `cluster.reduce((a, b) => a.headline.length > b.headline.length ? a : b)`
with seed `x`: the accumulator is kept only when strictly longer, so the
result is the last member attaining the maximal headline length. -/
def jsLongest (x : HeadlineItem) (rest : List HeadlineItem) : HeadlineItem :=
  rest.foldl (fun a b => if b.headline.length < a.headline.length then a else b) x

/-- The body of `consolidateClusters` for one non-empty cluster `x :: rest`:
sources deduplicated by name in first-occurrence order, representative
headline from the length-fold, `sourceCount` the number of distinct
sources. -/
def consolidateCluster (x : HeadlineItem) (rest : List HeadlineItem) : ConsolidatedItem :=
  let sources := jsSetArray [] ((x :: rest).map fun item => item.source)
  { headline := (jsLongest x rest).headline
    sources := sources
    sourceCount := sources.length }

/-- `consolidateClusters` on one cluster; `none` models the `TypeError` that
`Array.prototype.reduce` throws on an empty cluster. -/
def consolidateCluster? : List HeadlineItem → Option ConsolidatedItem
  | [] => none
  | x :: rest => some (consolidateCluster x rest)

/-- `consolidateClusters` of the source. -/
def consolidateClusters (clusters : List (List HeadlineItem)) :
    Option (List ConsolidatedItem) :=
  clusters.mapM consolidateCluster?

/-- A consolidated item with its ranking score (`{ ...item, score }`). -/
structure ScoredItem where
  headline : String
  sources : List String
  sourceCount : Nat
  score : ℚ
deriving DecidableEq, Repr

/-- The recognised scoring options (`config.consolidation?.scoring`), each
optional as in the configuration file.  `scoreItems` reads
`sourceCountWeight` and `recencyWeight` with their defaults and never reads
`engagementWeight`. -/
structure ScoringConfig where
  sourceCountWeight : Option ℚ
  recencyWeight : Option ℚ
  engagementWeight : Option ℚ
deriving DecidableEq, Repr

/-- The map body of `scoreItems`: `sourceScore = sourceCount * sourceWeight`,
`totalScore = sourceScore + recencyWeight * 0.5`. -/
def scoreItem (sourceWeight recencyWeight : ℚ) (item : ConsolidatedItem) : ScoredItem :=
  { headline := item.headline
    sources := item.sources
    sourceCount := item.sourceCount
    score := (item.sourceCount : ℚ) * sourceWeight + recencyWeight * (1 / 2) }

/-- Insert `x` into `l` before the first element whose score it reaches.
Together with `sortByScoreDesc` this is the descending stable sort that
`Array.prototype.sort((a, b) => b.score - a.score)` (stable per the
ECMAScript standard) performs: a stable sort's output is determined by
sortedness plus preservation of the relative order of equal keys. -/
def insertDesc (x : ScoredItem) : List ScoredItem → List ScoredItem
  | [] => [x]
  | y :: l => if y.score ≤ x.score then x :: y :: l else y :: insertDesc x l

/-- Stable sort by score, descending. -/
def sortByScoreDesc : List ScoredItem → List ScoredItem
  | [] => []
  | x :: l => insertDesc x (sortByScoreDesc l)

/-- `scoreItems` of the source: read the weights with their defaults
(`sourceCountWeight ?? 2.0`, `recencyWeight ?? 1.0`), score every item, sort
by score descending (stable). -/
def scoreItems (scoring : ScoringConfig) (consolidatedItems : List ConsolidatedItem) :
    List ScoredItem :=
  let sourceWeight := scoring.sourceCountWeight.getD 2
  let recencyWeight := scoring.recencyWeight.getD 1
  sortByScoreDesc (consolidatedItems.map (scoreItem sourceWeight recencyWeight))

/-- `l.slice(0, m)` of ECMAScript: a negative end counts from the end of the
array (`max(length + m, 0)`), a non-negative end is clamped to the length. -/
def jsSliceTo (m : Int) (l : List ScoredItem) : List ScoredItem :=
  let len : Int := l.length
  let fin : Int := if m < 0 then max (len + m) 0 else min m len
  l.take fin.toNat

/-- One per-source fetch result (`{ source, headlines }`). -/
structure SourceNews where
  source : String
  headlines : List String
deriving DecidableEq, Repr

/-- `consolidateNews` of the source, with the configured values passed
explicitly (`maxItems` is `config.consolidation?.maxItems ?? config.maxItems
?? 3`): flatten the per-source results into attributed items, cluster,
consolidate, score and rank, truncate with `slice(0, maxItems)`. -/
def consolidateNews (threshold : ℚ) (scoring : ScoringConfig) (maxItems : Int)
    (allHeadlines : List SourceNews) : Option (List ScoredItem) :=
  let flatItems := allHeadlines.flatMap fun ns =>
    ns.headlines.map fun h => { source := ns.source, headline := h : HeadlineItem }
  let clusters := groupSimilarHeadlines threshold flatItems
  (consolidateClusters clusters).map fun consolidated =>
    jsSliceTo maxItems (scoreItems scoring consolidated)

/-! ## Properties of the JavaScript-Set embedding -/

theorem mem_jsSetArray {a : String} : ∀ (l seen : List String),
    a ∈ jsSetArray seen l ↔ a ∈ l ∧ a ∉ seen := by
  intro l
  induction l with
  | nil => intro seen; simp [jsSetArray]
  | cons b bs ih =>
      intro seen
      by_cases hb : b ∈ seen
      · rw [jsSetArray, if_pos hb, ih]
        constructor
        · rintro ⟨h1, h2⟩
          exact ⟨List.mem_cons_of_mem _ h1, h2⟩
        · rintro ⟨h1, h2⟩
          rcases List.mem_cons.mp h1 with h | h
          · exact absurd (h ▸ hb) h2
          · exact ⟨h, h2⟩
      · rw [jsSetArray, if_neg hb]
        constructor
        · intro h
          rcases List.mem_cons.mp h with h | h
          · exact ⟨h ▸ List.mem_cons_self b bs, h ▸ hb⟩
          · have := (ih (b :: seen)).mp h
            refine ⟨List.mem_cons_of_mem _ this.1, fun hs => this.2 (List.mem_cons_of_mem _ hs)⟩
        · rintro ⟨h1, h2⟩
          rcases List.mem_cons.mp h1 with h | h
          · exact h ▸ List.mem_cons_self a _
          · by_cases hab : a = b
            · exact hab ▸ List.mem_cons_self a _
            · exact List.mem_cons_of_mem _
                ((ih (b :: seen)).mpr ⟨h, fun hs => (List.mem_cons.mp hs).elim hab h2⟩)

theorem nodup_jsSetArray : ∀ (l seen : List String), (jsSetArray seen l).Nodup := by
  intro l
  induction l with
  | nil => intro seen; simp [jsSetArray]
  | cons b bs ih =>
      intro seen
      by_cases hb : b ∈ seen
      · rw [jsSetArray, if_pos hb]; exact ih seen
      · rw [jsSetArray, if_neg hb]
        refine List.Nodup.cons (fun hmem => ?_) (ih (b :: seen))
        exact ((mem_jsSetArray bs (b :: seen)).mp hmem).2 (List.mem_cons_self b seen)

/-- Two lists without duplicates and with the same members have the same
length. -/
theorem length_eq_of_nodup_of_mem_iff {l₁ l₂ : List String}
    (h₁ : l₁.Nodup) (h₂ : l₂.Nodup) (h : ∀ a, a ∈ l₁ ↔ a ∈ l₂) :
    l₁.length = l₂.length :=
  Nat.le_antisymm
    (List.Subperm.length_le (h₁.subperm fun _ ha => (h _).mp ha))
    (List.Subperm.length_le (h₂.subperm fun _ ha => (h _).mpr ha))

/-- Membership in the deduplicated set of a token list. -/
theorem mem_jsSet {a : String} {l : List String} :
    a ∈ jsSetArray [] l ↔ a ∈ l := by
  rw [mem_jsSetArray]
  simp

/-! ## The similarity estimator's contract -/

/-- **C6.** For all token sequences `A` and `B`, `similarity(A, B)` lies in
`[0, 1]` and equals `similarity(B, A)`; for every non-empty token list the
self-similarity is exactly `1`; for non-empty token lists with no common
token the similarity is exactly `0`; and when both token lists are empty the
result is `0` (no division by zero). -/
theorem jaccard_contract :
    (∀ A B : List String,
      0 ≤ jaccardSimilarity A B ∧ jaccardSimilarity A B ≤ 1 ∧
        jaccardSimilarity A B = jaccardSimilarity B A) ∧
    (∀ A : List String, A ≠ [] → jaccardSimilarity A A = 1) ∧
    (∀ A B : List String, A ≠ [] → B ≠ [] → (∀ t, t ∈ A → t ∉ B) →
      jaccardSimilarity A B = 0) ∧
    jaccardSimilarity [] [] = 0 := by
  have hnn : ∀ A B : List String, 0 ≤ jaccardSimilarity A B := by
    intro A B
    rw [jaccardSimilarity]
    split
    · exact le_refl 0
    · positivity
  have hle : ∀ A B : List String, jaccardSimilarity A B ≤ 1 := by
    intro A B
    rw [jaccardSimilarity]
    split
    · exact zero_le_one
    · rename_i hUz
      have hsub : jsSetArray []
            ((jsSetArray [] A).filter fun x => decide (x ∈ jsSetArray [] B)) ⊆
          jsSetArray [] (jsSetArray [] A ++ jsSetArray [] B) := by
        intro a ha
        have := (List.mem_filter.mp (mem_jsSet.mp ha)).1
        exact mem_jsSet.mpr (List.mem_append_left _ this)
      have hlen := List.Subperm.length_le ((nodup_jsSetArray _ []).subperm hsub)
      have hpos : (0 : ℚ) <
          ((jsSetArray [] (jsSetArray [] A ++ jsSetArray [] B)).length : ℚ) := by
        exact_mod_cast Nat.pos_of_ne_zero hUz
      rw [div_le_one hpos]
      exact_mod_cast hlen
  have hsymm : ∀ A B : List String, jaccardSimilarity A B = jaccardSimilarity B A := by
    intro A B
    have hU : (jsSetArray [] (jsSetArray [] A ++ jsSetArray [] B)).length =
        (jsSetArray [] (jsSetArray [] B ++ jsSetArray [] A)).length := by
      refine length_eq_of_nodup_of_mem_iff (nodup_jsSetArray _ []) (nodup_jsSetArray _ []) ?_
      intro a
      rw [mem_jsSet, mem_jsSet, List.mem_append, List.mem_append, Or.comm]
    have hI : (jsSetArray []
          ((jsSetArray [] A).filter fun x => decide (x ∈ jsSetArray [] B))).length =
        (jsSetArray []
          ((jsSetArray [] B).filter fun x => decide (x ∈ jsSetArray [] A))).length := by
      refine length_eq_of_nodup_of_mem_iff (nodup_jsSetArray _ []) (nodup_jsSetArray _ []) ?_
      intro a
      rw [mem_jsSet, mem_jsSet, List.mem_filter, List.mem_filter,
        decide_eq_true_eq, decide_eq_true_eq, mem_jsSet, mem_jsSet, And.comm]
    rw [jaccardSimilarity, jaccardSimilarity]
    simp only [hU, hI]
  refine ⟨fun A B => ⟨hnn A B, hle A B, hsymm A B⟩, ?_, ?_, ?_⟩
  · intro A hA
    have hSne : (jsSetArray [] A).length ≠ 0 := by
      match A, hA with
      | a :: as, _ =>
        intro hcon
        have hmem : a ∈ jsSetArray [] (a :: as) := mem_jsSet.mpr (List.mem_cons_self a as)
        rw [List.length_eq_zero.mp hcon] at hmem
        exact List.not_mem_nil a hmem
    have hI : (jsSetArray []
          ((jsSetArray [] A).filter fun x => decide (x ∈ jsSetArray [] A))).length =
        (jsSetArray [] A).length := by
      refine length_eq_of_nodup_of_mem_iff (nodup_jsSetArray _ []) (nodup_jsSetArray _ []) ?_
      intro a
      rw [mem_jsSet, List.mem_filter, decide_eq_true_eq, mem_jsSet]
      exact ⟨fun h => h.1, fun h => ⟨h, h⟩⟩
    have hU : (jsSetArray [] (jsSetArray [] A ++ jsSetArray [] A)).length =
        (jsSetArray [] A).length := by
      refine length_eq_of_nodup_of_mem_iff (nodup_jsSetArray _ []) (nodup_jsSetArray _ []) ?_
      intro a
      rw [mem_jsSet, List.mem_append, or_self]
    rw [jaccardSimilarity]
    simp only [hU, hI]
    rw [if_neg hSne]
    exact div_self (by exact_mod_cast hSne)
  · intro A B _ _ hdisj
    have hfil : (jsSetArray [] A).filter (fun x => decide (x ∈ jsSetArray [] B)) = [] := by
      rw [List.filter_eq_nil_iff]
      intro a ha
      simp only [decide_eq_true_eq, mem_jsSet]
      exact hdisj a (mem_jsSet.mp ha)
    rw [jaccardSimilarity]
    simp only [hfil]
    split
    · rfl
    · rw [show jsSetArray [] ([] : List String) = [] from rfl]
      simp
  · rfl

/-! ## Properties of the clusterer -/

theorem groupAux_congr (threshold : ℚ) :
    ∀ (fuel₁ : Nat), ∀ {fuel₂ : Nat} {l : List HeadlineItem},
      l.length ≤ fuel₁ → l.length ≤ fuel₂ →
      groupAux threshold fuel₁ l = groupAux threshold fuel₂ l := by
  intro fuel₁
  induction fuel₁ with
  | zero =>
      intro fuel₂ l h₁ _
      have : l = [] := List.length_eq_zero.mp (Nat.le_zero.mp h₁)
      subst this
      cases fuel₂ <;> rfl
  | succ n ih =>
      intro fuel₂ l h₁ h₂
      cases l with
      | nil => cases fuel₂ <;> rfl
      | cons x xs =>
          cases fuel₂ with
          | zero => exact absurd h₂ (by simp)
          | succ m =>
              rw [groupAux, groupAux]
              have hlen := List.length_filter_le
                (fun y => ! decide (threshold ≤ itemSimilarity x y)) xs
              have hxs₁ : xs.length ≤ n := Nat.lt_succ_iff.mp h₁
              have hxs₂ : xs.length ≤ m := Nat.lt_succ_iff.mp h₂
              rw [ih (Nat.le_trans hlen hxs₁) (Nat.le_trans hlen hxs₂)]

theorem groupSimilarHeadlines_nil (threshold : ℚ) :
    groupSimilarHeadlines threshold [] = [] := rfl

/-- One pass of the greedy loop: the head seeds a cluster with the later
items similar to it, and clustering continues on the dissimilar rest. -/
theorem groupSimilarHeadlines_cons (threshold : ℚ) (x : HeadlineItem)
    (xs : List HeadlineItem) :
    groupSimilarHeadlines threshold (x :: xs) =
      (x :: xs.filter fun y => decide (threshold ≤ itemSimilarity x y)) ::
        groupSimilarHeadlines threshold
          (xs.filter fun y => ! decide (threshold ≤ itemSimilarity x y)) := by
  rw [groupSimilarHeadlines, groupSimilarHeadlines]
  show groupAux threshold (xs.length + 1) (x :: xs) = _
  rw [groupAux]
  have hlen := List.length_filter_le
    (fun y => ! decide (threshold ≤ itemSimilarity x y)) xs
  rw [groupAux_congr threshold xs.length hlen (Nat.le_refl _)]

theorem groupAux_partition (threshold : ℚ) :
    ∀ (fuel : Nat) (l : List HeadlineItem), l.length ≤ fuel →
      [] ∉ groupAux threshold fuel l ∧
        List.Perm (groupAux threshold fuel l).flatten l := by
  intro fuel
  induction fuel with
  | zero =>
      intro l h
      have : l = [] := List.length_eq_zero.mp (Nat.le_zero.mp h)
      subst this
      exact ⟨List.not_mem_nil [], List.Perm.refl []⟩
  | succ n ih =>
      intro l h
      cases l with
      | nil => exact ⟨List.not_mem_nil [], List.Perm.refl []⟩
      | cons x xs =>
          rw [groupAux]
          have hlen := List.length_filter_le
            (fun y => ! decide (threshold ≤ itemSimilarity x y)) xs
          have hxs : xs.length ≤ n := Nat.lt_succ_iff.mp h
          obtain ⟨ihne, ihperm⟩ := ih _ (Nat.le_trans hlen hxs)
          constructor
          · intro hmem
            rcases List.mem_cons.mp hmem with hhd | htl
            · exact List.cons_ne_nil x _ hhd.symm
            · exact ihne htl
          · rw [List.flatten_cons]
            refine List.Perm.trans (List.Perm.append_left _ ihperm) ?_
            rw [List.cons_append]
            exact List.Perm.cons x (List.filter_append_perm _ xs)

/-- **C4.** The clusterer's output partitions its input: no cluster is
empty, and the concatenation of all clusters' items is a permutation of the
input (so every item occurs in exactly one cluster, with multiplicity). -/
theorem cluster_partition (threshold : ℚ) (items : List HeadlineItem) :
    [] ∉ groupSimilarHeadlines threshold items ∧
      List.Perm (groupSimilarHeadlines threshold items).flatten items :=
  groupAux_partition threshold items.length items (Nat.le_refl _)

/-- **C3 (amended).** Raising the threshold never increases the size of the
cluster seeded by the first item: that cluster is the seed together with the
later items whose similarity to the seed reaches the threshold, so a higher
threshold admits a sublist of the members a lower one admits.  (For later
clusters the seeds themselves change with the threshold, and
`cluster_threshold_not_mono_cex` shows a later cluster can grow past every
cluster of the lower threshold.) -/
theorem cluster_first_threshold_mono (t₁ t₂ : ℚ) (x : HeadlineItem)
    (xs : List HeadlineItem) (h : t₁ ≤ t₂) :
    ((groupSimilarHeadlines t₂ (x :: xs)).headI).length ≤
      ((groupSimilarHeadlines t₁ (x :: xs)).headI).length := by
  rw [groupSimilarHeadlines_cons, groupSimilarHeadlines_cons,
    List.headI_cons, List.headI_cons]
  simp only [List.length_cons, Nat.succ_le_succ_iff]
  refine List.Sublist.length_le (List.monotone_filter_right xs ?_)
  intro a ha
  exact decide_eq_true (le_trans h (of_decide_eq_true ha))

theorem cluster_first_threshold_mono_witness :
    ((groupSimilarHeadlines 1 [⟨"A", "alpha beta"⟩]).headI).length ≤
      ((groupSimilarHeadlines 0 [⟨"A", "alpha beta"⟩]).headI).length :=
  cluster_first_threshold_mono 0 1 ⟨"A", "alpha beta"⟩ [] zero_le_one

/-- **C3 (counterexample).** Four items for which raising the threshold from
`0.5` to `0.7` grows a (later) cluster from size `2` to size `3`: at `0.5`
the first item captures the second and the clusters are `[2, 2]`; at `0.7`
the first item stays alone and the second captures the last two, giving
`[1, 3]`.  So raising the threshold can increase cluster size. -/
theorem cluster_threshold_not_mono_cex :
    (1 : ℚ) / 2 ≤ 7 / 10 ∧
    groupSimilarHeadlines ((1 : ℚ) / 2)
        [⟨"S1", "alpha beta"⟩, ⟨"S2", "alpha beta gamma delta"⟩,
         ⟨"S3", "beta gamma delta"⟩, ⟨"S4", "beta gamma delta"⟩] =
      [[⟨"S1", "alpha beta"⟩, ⟨"S2", "alpha beta gamma delta"⟩],
       [⟨"S3", "beta gamma delta"⟩, ⟨"S4", "beta gamma delta"⟩]] ∧
    groupSimilarHeadlines ((7 : ℚ) / 10)
        [⟨"S1", "alpha beta"⟩, ⟨"S2", "alpha beta gamma delta"⟩,
         ⟨"S3", "beta gamma delta"⟩, ⟨"S4", "beta gamma delta"⟩] =
      [[⟨"S1", "alpha beta"⟩],
       [⟨"S2", "alpha beta gamma delta"⟩, ⟨"S3", "beta gamma delta"⟩,
        ⟨"S4", "beta gamma delta"⟩]] ∧
    (∃ c, c ∈ groupSimilarHeadlines ((7 : ℚ) / 10)
        [⟨"S1", "alpha beta"⟩, ⟨"S2", "alpha beta gamma delta"⟩,
         ⟨"S3", "beta gamma delta"⟩, ⟨"S4", "beta gamma delta"⟩] ∧
      ∀ c₁ ∈ groupSimilarHeadlines ((1 : ℚ) / 2)
          [⟨"S1", "alpha beta"⟩, ⟨"S2", "alpha beta gamma delta"⟩,
           ⟨"S3", "beta gamma delta"⟩, ⟨"S4", "beta gamma delta"⟩],
        c₁.length < c.length) := by
  have sab : itemSimilarity ⟨"S1", "alpha beta"⟩ ⟨"S2", "alpha beta gamma delta"⟩ =
      ((2 : ℕ) : ℚ) / ((4 : ℕ) : ℚ) := rfl
  have sac : itemSimilarity ⟨"S1", "alpha beta"⟩ ⟨"S3", "beta gamma delta"⟩ =
      ((1 : ℕ) : ℚ) / ((4 : ℕ) : ℚ) := rfl
  have sad : itemSimilarity ⟨"S1", "alpha beta"⟩ ⟨"S4", "beta gamma delta"⟩ =
      ((1 : ℕ) : ℚ) / ((4 : ℕ) : ℚ) := rfl
  have sbc : itemSimilarity ⟨"S2", "alpha beta gamma delta"⟩ ⟨"S3", "beta gamma delta"⟩ =
      ((3 : ℕ) : ℚ) / ((4 : ℕ) : ℚ) := rfl
  have sbd : itemSimilarity ⟨"S2", "alpha beta gamma delta"⟩ ⟨"S4", "beta gamma delta"⟩ =
      ((3 : ℕ) : ℚ) / ((4 : ℕ) : ℚ) := rfl
  have scd : itemSimilarity ⟨"S3", "beta gamma delta"⟩ ⟨"S4", "beta gamma delta"⟩ =
      ((3 : ℕ) : ℚ) / ((3 : ℕ) : ℚ) := rfl
  have e1 : decide ((1 : ℚ) / 2 ≤ ((2 : ℕ) : ℚ) / ((4 : ℕ) : ℚ)) = true :=
    decide_eq_true (by norm_num)
  have e2 : decide ((1 : ℚ) / 2 ≤ ((1 : ℕ) : ℚ) / ((4 : ℕ) : ℚ)) = false :=
    decide_eq_false (by norm_num)
  have e3 : decide ((1 : ℚ) / 2 ≤ ((3 : ℕ) : ℚ) / ((3 : ℕ) : ℚ)) = true :=
    decide_eq_true (by norm_num)
  have f1 : decide ((7 : ℚ) / 10 ≤ ((2 : ℕ) : ℚ) / ((4 : ℕ) : ℚ)) = false :=
    decide_eq_false (by norm_num)
  have f2 : decide ((7 : ℚ) / 10 ≤ ((1 : ℕ) : ℚ) / ((4 : ℕ) : ℚ)) = false :=
    decide_eq_false (by norm_num)
  have f3 : decide ((7 : ℚ) / 10 ≤ ((3 : ℕ) : ℚ) / ((4 : ℕ) : ℚ)) = true :=
    decide_eq_true (by norm_num)
  have hlow : groupSimilarHeadlines ((1 : ℚ) / 2)
      [⟨"S1", "alpha beta"⟩, ⟨"S2", "alpha beta gamma delta"⟩,
       ⟨"S3", "beta gamma delta"⟩, ⟨"S4", "beta gamma delta"⟩] =
      [[⟨"S1", "alpha beta"⟩, ⟨"S2", "alpha beta gamma delta"⟩],
       [⟨"S3", "beta gamma delta"⟩, ⟨"S4", "beta gamma delta"⟩]] := by
    simp only [groupSimilarHeadlines_cons, groupSimilarHeadlines_nil,
      List.filter_cons, List.filter_nil, sab, sac, sad, sbc, sbd, scd,
      e1, e2, e3, Bool.not_true, Bool.not_false, eq_self_iff_true,
      Bool.false_eq_true, ite_true, ite_false]
  have hhigh : groupSimilarHeadlines ((7 : ℚ) / 10)
      [⟨"S1", "alpha beta"⟩, ⟨"S2", "alpha beta gamma delta"⟩,
       ⟨"S3", "beta gamma delta"⟩, ⟨"S4", "beta gamma delta"⟩] =
      [[⟨"S1", "alpha beta"⟩],
       [⟨"S2", "alpha beta gamma delta"⟩, ⟨"S3", "beta gamma delta"⟩,
        ⟨"S4", "beta gamma delta"⟩]] := by
    simp only [groupSimilarHeadlines_cons, groupSimilarHeadlines_nil,
      List.filter_cons, List.filter_nil, sab, sac, sad, sbc, sbd, scd,
      f1, f2, f3, Bool.not_true, Bool.not_false, eq_self_iff_true,
      Bool.false_eq_true, ite_true, ite_false]
  refine ⟨by norm_num, hlow, hhigh, ?_⟩
  refine ⟨[⟨"S2", "alpha beta gamma delta"⟩, ⟨"S3", "beta gamma delta"⟩,
    ⟨"S4", "beta gamma delta"⟩], ?_, ?_⟩
  · rw [hhigh]; simp
  · intro c₁ hc₁
    rw [hlow] at hc₁
    rcases List.mem_cons.mp hc₁ with h | h
    · subst h; simp
    · rcases List.mem_cons.mp h with h2 | h2
      · subst h2; simp
      · exact absurd h2 (List.not_mem_nil c₁)

/-- **C5.** Scenario A: with threshold `0.35`, the two Fed headlines share
the normalized tokens `{signals, rate, cut, march}`, their Jaccard
similarity is `4/9 ≥ 0.35`, so they form one cluster that consolidates to
`sourceCount = 2`, and the Ethereum headline forms a singleton cluster with
`sourceCount = 1`. -/
theorem scenario_a_clustering :
    ((jsSetArray [] (preprocessText "Federal Reserve signals rate cut in March")).filter
        fun t => decide (t ∈ jsSetArray []
          (preprocessText "Fed Chair signals rate cut coming in March"))) =
      ["signals", "rate", "cut", "march"] ∧
    jaccardSimilarity (preprocessText "Federal Reserve signals rate cut in March")
        (preprocessText "Fed Chair signals rate cut coming in March") = 4 / 9 ∧
    (7 : ℚ) / 20 ≤ 4 / 9 ∧
    groupSimilarHeadlines ((7 : ℚ) / 20)
        [⟨"Bloomberg", "Federal Reserve signals rate cut in March"⟩,
         ⟨"CNBC", "Fed Chair signals rate cut coming in March"⟩,
         ⟨"WSJ", "Ethereum gains 5% today"⟩] =
      [[⟨"Bloomberg", "Federal Reserve signals rate cut in March"⟩,
        ⟨"CNBC", "Fed Chair signals rate cut coming in March"⟩],
       [⟨"WSJ", "Ethereum gains 5% today"⟩]] ∧
    (consolidateClusters (groupSimilarHeadlines ((7 : ℚ) / 20)
        [⟨"Bloomberg", "Federal Reserve signals rate cut in March"⟩,
         ⟨"CNBC", "Fed Chair signals rate cut coming in March"⟩,
         ⟨"WSJ", "Ethereum gains 5% today"⟩])).map
        (fun items => items.map fun i => i.sourceCount) = some [2, 1] := by
  have s12 : itemSimilarity ⟨"Bloomberg", "Federal Reserve signals rate cut in March"⟩
      ⟨"CNBC", "Fed Chair signals rate cut coming in March"⟩ =
      ((4 : ℕ) : ℚ) / ((9 : ℕ) : ℚ) := rfl
  have s13 : itemSimilarity ⟨"Bloomberg", "Federal Reserve signals rate cut in March"⟩
      ⟨"WSJ", "Ethereum gains 5% today"⟩ =
      ((0 : ℕ) : ℚ) / ((9 : ℕ) : ℚ) := rfl
  have d1 : decide ((7 : ℚ) / 20 ≤ ((4 : ℕ) : ℚ) / ((9 : ℕ) : ℚ)) = true :=
    decide_eq_true (by norm_num)
  have d2 : decide ((7 : ℚ) / 20 ≤ ((0 : ℕ) : ℚ) / ((9 : ℕ) : ℚ)) = false :=
    decide_eq_false (by norm_num)
  have hgrp : groupSimilarHeadlines ((7 : ℚ) / 20)
      [⟨"Bloomberg", "Federal Reserve signals rate cut in March"⟩,
       ⟨"CNBC", "Fed Chair signals rate cut coming in March"⟩,
       ⟨"WSJ", "Ethereum gains 5% today"⟩] =
      [[⟨"Bloomberg", "Federal Reserve signals rate cut in March"⟩,
        ⟨"CNBC", "Fed Chair signals rate cut coming in March"⟩],
       [⟨"WSJ", "Ethereum gains 5% today"⟩]] := by
    simp only [groupSimilarHeadlines_cons, groupSimilarHeadlines_nil,
      List.filter_cons, List.filter_nil, s12, s13, d1, d2,
      Bool.not_true, Bool.not_false, eq_self_iff_true,
      Bool.false_eq_true, ite_true, ite_false]
  refine ⟨rfl, ?_, by norm_num, hgrp, ?_⟩
  · rw [show jaccardSimilarity (preprocessText "Federal Reserve signals rate cut in March")
        (preprocessText "Fed Chair signals rate cut coming in March") =
        ((4 : ℕ) : ℚ) / ((9 : ℕ) : ℚ) from rfl]
    norm_num
  · rw [hgrp]
    rfl

/-! ## Properties of the representative selector -/

theorem jsLongest_spec : ∀ (rest : List HeadlineItem) (x : HeadlineItem),
    ∃ l₁ l₂, x :: rest = l₁ ++ jsLongest x rest :: l₂ ∧
      (∀ y ∈ l₁, y.headline.length ≤ (jsLongest x rest).headline.length) ∧
      (∀ y ∈ l₂, y.headline.length < (jsLongest x rest).headline.length) := by
  intro rest
  induction rest with
  | nil =>
      intro x
      exact ⟨[], [], rfl, by simp, by simp⟩
  | cons b bs ih =>
      intro x
      by_cases hlt : b.headline.length < x.headline.length
      · have hfold : jsLongest x (b :: bs) = jsLongest x bs := by
          rw [jsLongest, List.foldl_cons, if_pos hlt]; rfl
        obtain ⟨l₁, l₂, hdec, hle, hstrict⟩ := ih x
        rw [hfold]
        cases l₁ with
        | nil =>
            have hx : x = jsLongest x bs := (List.cons.injEq _ _ _ _).mp hdec |>.1
            have hl₂ : bs = l₂ := (List.cons.injEq _ _ _ _).mp hdec |>.2
            refine ⟨[], b :: bs, by rw [List.nil_append, ← hx], by simp, ?_⟩
            intro y hy
            rcases List.mem_cons.mp hy with h | h
            · subst h; rw [← hx]; exact hlt
            · exact hstrict y (hl₂ ▸ h)
        | cons h₁ t₁ =>
            obtain ⟨hx, hbs⟩ := (List.cons.injEq _ _ _ _).mp hdec
            subst hx
            refine ⟨x :: b :: t₁, l₂, ?_, ?_, hstrict⟩
            · rw [List.cons_append, List.cons_append]
              exact congrArg (fun t => x :: b :: t) hbs
            · intro y hy
              rcases List.mem_cons.mp hy with h | h
              · subst h
                exact hle y (List.mem_cons_self _ _)
              · rcases List.mem_cons.mp h with h2 | h2
                · subst h2
                  exact le_trans (Nat.le_of_lt hlt) (hle x (List.mem_cons_self _ _))
                · exact hle y (List.mem_cons_of_mem _ h2)
      · have hfold : jsLongest x (b :: bs) = jsLongest b bs := by
          rw [jsLongest, List.foldl_cons, if_neg hlt]; rfl
        obtain ⟨l₁, l₂, hdec, hle, hstrict⟩ := ih b
        have hall : ∀ y ∈ b :: bs, y.headline.length ≤ (jsLongest b bs).headline.length := by
          intro y hy
          rw [hdec] at hy
          rcases List.mem_append.mp hy with h | h
          · exact hle y h
          · rcases List.mem_cons.mp h with h2 | h2
            · exact h2 ▸ le_refl _
            · exact Nat.le_of_lt (hstrict y h2)
        rw [hfold]
        refine ⟨x :: l₁, l₂, ?_, ?_, hstrict⟩
        · rw [List.cons_append, ← hdec]
        · intro y hy
          rcases List.mem_cons.mp hy with h | h
          · subst h
            exact le_trans (Nat.le_of_not_lt hlt) (hall b (List.mem_cons_self b bs))
          · exact hle y h

/-- **C7 (amended).** For every non-empty cluster the consolidated item's
headline belongs to a member of maximal headline length, and on ties the
LAST occurrence in cluster order wins (the fold keeps the accumulator only
when it is strictly longer, so a later member of equal length replaces it);
the sources are the distinct member sources (no duplicates, same membership
as the members' source list), and `sourceCount` is their number, at least
`1`. -/
theorem consolidate_representative_spec (x : HeadlineItem) (rest : List HeadlineItem) :
    (∃ l₁ l₂ r, x :: rest = l₁ ++ r :: l₂ ∧
      (consolidateCluster x rest).headline = r.headline ∧
      (∀ y ∈ l₁, y.headline.length ≤ r.headline.length) ∧
      (∀ y ∈ l₂, y.headline.length < r.headline.length)) ∧
    (consolidateCluster x rest).sources.Nodup ∧
    (∀ s, s ∈ (consolidateCluster x rest).sources ↔
      s ∈ (x :: rest).map fun i => i.source) ∧
    (consolidateCluster x rest).sourceCount = (consolidateCluster x rest).sources.length ∧
    1 ≤ (consolidateCluster x rest).sourceCount := by
  refine ⟨?_, nodup_jsSetArray _ [], fun s => mem_jsSet, rfl, ?_⟩
  · obtain ⟨l₁, l₂, hdec, hle, hstrict⟩ := jsLongest_spec rest x
    exact ⟨l₁, l₂, jsLongest x rest, hdec, rfl, hle, hstrict⟩
  · have hmem : x.source ∈ (consolidateCluster x rest).sources :=
      mem_jsSet.mpr (List.mem_map.mpr ⟨x, List.mem_cons_self x rest, rfl⟩)
    exact List.length_pos_of_mem hmem

/-- **C7 (counterexample).** A two-member cluster whose headlines have equal
length: the consolidated headline is the SECOND member's (`"xyz"`), not the
first's (`"abc"`), so on ties the first occurrence does not win. -/
theorem consolidate_tie_last_cex :
    (consolidateCluster ⟨"A", "abc"⟩ [⟨"B", "xyz"⟩]).headline = "xyz" ∧
    ("abc" : String).length = ("xyz" : String).length ∧
    (consolidateCluster ⟨"A", "abc"⟩ [⟨"B", "xyz"⟩]).headline ≠ "abc" ∧
    (consolidateCluster ⟨"A", "abc"⟩ [⟨"B", "xyz"⟩]).sources = ["A", "B"] ∧
    (consolidateCluster ⟨"A", "abc"⟩ [⟨"B", "xyz"⟩]).sourceCount = 2 := by
  refine ⟨rfl, rfl, ?_, rfl, rfl⟩
  decide

/-! ## Properties of the scorer and the ranker -/

theorem insertDesc_perm (x : ScoredItem) :
    ∀ l : List ScoredItem, List.Perm (insertDesc x l) (x :: l) := by
  intro l
  induction l with
  | nil => exact List.Perm.refl _
  | cons y t ih =>
      rw [insertDesc]
      split
      · exact List.Perm.refl _
      · exact List.Perm.trans (List.Perm.cons y ih) (List.Perm.swap x y t)

theorem sortByScoreDesc_perm :
    ∀ l : List ScoredItem, List.Perm (sortByScoreDesc l) l := by
  intro l
  induction l with
  | nil => exact List.Perm.refl _
  | cons x t ih =>
      rw [sortByScoreDesc]
      exact List.Perm.trans (insertDesc_perm x _) (List.Perm.cons x ih)

theorem insertDesc_pairwise (x : ScoredItem) :
    ∀ l : List ScoredItem,
      List.Pairwise (fun a b : ScoredItem => b.score ≤ a.score) l →
      List.Pairwise (fun a b : ScoredItem => b.score ≤ a.score) (insertDesc x l) := by
  intro l
  induction l with
  | nil => intro _; exact List.pairwise_singleton _ x
  | cons y t ih =>
      intro h
      rw [insertDesc]
      split
      · rename_i hyx
        refine List.Pairwise.cons ?_ h
        intro z hz
        rcases List.mem_cons.mp hz with h2 | h2
        · exact h2 ▸ hyx
        · exact le_trans (List.rel_of_pairwise_cons h h2) hyx
      · rename_i hyx
        have hxy : x.score ≤ y.score := le_of_lt (lt_of_not_le hyx)
        refine List.Pairwise.cons ?_ (ih (List.Pairwise.of_cons h))
        intro z hz
        have hz' : z ∈ x :: t := (insertDesc_perm x t).mem_iff.mp hz
        rcases List.mem_cons.mp hz' with h2 | h2
        · exact h2 ▸ hxy
        · exact List.rel_of_pairwise_cons h h2

theorem sortByScoreDesc_pairwise :
    ∀ l : List ScoredItem,
      List.Pairwise (fun a b : ScoredItem => b.score ≤ a.score) (sortByScoreDesc l) := by
  intro l
  induction l with
  | nil => exact List.Pairwise.nil
  | cons x t ih => exact insertDesc_pairwise x _ ih

theorem filter_insertDesc (s : ℚ) (x : ScoredItem) :
    ∀ l : List ScoredItem,
      (insertDesc x l).filter (fun y => decide (y.score = s)) =
        if x.score = s then x :: l.filter (fun y => decide (y.score = s))
        else l.filter (fun y => decide (y.score = s)) := by
  intro l
  induction l with
  | nil =>
      rw [show insertDesc x [] = [x] from rfl]
      by_cases hx : x.score = s
      · simp [List.filter_cons, hx]
      · simp [List.filter_cons, hx]
  | cons y t ih =>
      rw [insertDesc]
      split
      · rename_i hyx
        by_cases hx : x.score = s
        · simp [List.filter_cons, hx]
        · simp [List.filter_cons, hx]
      · rename_i hyx
        have hlt : x.score < y.score := lt_of_not_le hyx
        by_cases hx : x.score = s
        · have hy : ¬ (y.score = s) := by
            intro hcon
            exact absurd (hx ▸ hcon ▸ hlt) (lt_irrefl _)
          simp [List.filter_cons, ih, hx, hy]
        · simp [List.filter_cons, ih, hx]

theorem filter_sortByScoreDesc (s : ℚ) :
    ∀ l : List ScoredItem,
      (sortByScoreDesc l).filter (fun y => decide (y.score = s)) =
        l.filter (fun y => decide (y.score = s)) := by
  intro l
  induction l with
  | nil => rfl
  | cons x t ih =>
      rw [sortByScoreDesc, filter_insertDesc, List.filter_cons]
      by_cases hx : x.score = s
      · rw [if_pos hx, if_pos (by simp [hx]), ih]
      · rw [if_neg hx, if_neg (by simp [hx]), ih]

/-- **C8.** The scorer's output is sorted by score in descending order, and
for every score value the items attaining it appear in the same relative
order as in the consolidation-step input (stable sort). -/
theorem scoreItems_sorted_stable (scoring : ScoringConfig) (items : List ConsolidatedItem) :
    List.Pairwise (fun a b : ScoredItem => b.score ≤ a.score) (scoreItems scoring items) ∧
    ∀ s : ℚ, (scoreItems scoring items).filter (fun y => decide (y.score = s)) =
      (items.map (scoreItem (scoring.sourceCountWeight.getD 2)
        (scoring.recencyWeight.getD 1))).filter (fun y => decide (y.score = s)) := by
  constructor
  · exact sortByScoreDesc_pairwise _
  · intro s
    exact filter_sortByScoreDesc s _

/-- **C10.** Scoring only adds a `score` field and reorders: every
consolidated input item reappears in the scorer's output with its
`headline`, `sources` and `sourceCount` unchanged. -/
theorem scoreItems_frame (scoring : ScoringConfig) (items : List ConsolidatedItem)
    (x : ConsolidatedItem) (hx : x ∈ items) :
    ∃ y ∈ scoreItems scoring items,
      y.headline = x.headline ∧ y.sources = x.sources ∧ y.sourceCount = x.sourceCount := by
  refine ⟨scoreItem (scoring.sourceCountWeight.getD 2) (scoring.recencyWeight.getD 1) x,
    ?_, rfl, rfl, rfl⟩
  exact (sortByScoreDesc_perm _).mem_iff.mpr (List.mem_map_of_mem _ hx)

theorem scoreItems_frame_witness :
    ∃ y ∈ scoreItems ⟨none, none, none⟩ [⟨"h", ["A"], 1⟩],
      y.headline = ConsolidatedItem.headline ⟨"h", ["A"], 1⟩ ∧
      y.sources = ConsolidatedItem.sources ⟨"h", ["A"], 1⟩ ∧
      y.sourceCount = ConsolidatedItem.sourceCount ⟨"h", ["A"], 1⟩ :=
  scoreItems_frame ⟨none, none, none⟩ [⟨"h", ["A"], 1⟩] ⟨"h", ["A"], 1⟩
    (List.mem_cons_self _ _)

/-- **C2 (amended).** The ranked/truncated output's length follows
JavaScript `slice(0, maxItems)` semantics: `min(maxItems, |items|)` for
`maxItems ≥ 0`, but `max(|items| + maxItems, 0)` for negative `maxItems`
(a negative end is an offset from the end of the array), so a negative
`maxItems` does not generally yield an empty sequence. -/
theorem rank_truncate_length (scoring : ScoringConfig) (items : List ConsolidatedItem)
    (m : Int) :
    ((jsSliceTo m (scoreItems scoring items)).length : Int) =
      if m < 0 then max ((items.length : Int) + m) 0
      else min m (items.length : Int) := by
  have hlen : (scoreItems scoring items).length = items.length :=
    (sortByScoreDesc_perm _).length_eq.trans (List.length_map _ _)
  simp only [jsSliceTo, List.length_take, hlen]
  by_cases hm : m < 0
  · simp only [if_pos hm]
    omega
  · simp only [if_neg hm]
    omega

/-- **C2 (counterexample).** Two scored items and `maxItems = -1 ≤ 0`: the
truncation returns one item, not the empty sequence (JavaScript
`slice(0, -1)` keeps all but the last element). -/
theorem rank_truncate_negative_cex :
    ((-1 : Int) ≤ 0) ∧
    (jsSliceTo (-1) (scoreItems ⟨none, none, none⟩
      [⟨"aaa", ["A"], 1⟩, ⟨"bbb", ["B"], 1⟩])).length = 1 ∧
    jsSliceTo (-1) (scoreItems ⟨none, none, none⟩
      [⟨"aaa", ["A"], 1⟩, ⟨"bbb", ["B"], 1⟩]) ≠ [] := by
  have hlen : (scoreItems ⟨none, none, none⟩
      [⟨"aaa", ["A"], 1⟩, ⟨"bbb", ["B"], 1⟩]).length = 2 :=
    (sortByScoreDesc_perm _).length_eq
  have h1 : (jsSliceTo (-1) (scoreItems ⟨none, none, none⟩
      [⟨"aaa", ["A"], 1⟩, ⟨"bbb", ["B"], 1⟩])).length = 1 := by
    simp only [jsSliceTo, List.length_take, hlen]
    decide
  refine ⟨by norm_num, h1, ?_⟩
  intro hcon
  rw [hcon] at h1
  exact absurd h1 (by decide)

/-- **C1 (code evaluation).** Under the default weights the scorer assigns a
consolidated item with `sourceCount = 1` the score
`1 * 2.0 + 1.0 * 0.5 = 2.5`: the engagement term the claim (and the repo's
algorithm document) require — `engagementScore * engagementWeight = 0.3 *
0.5 = 0.15` when no engagement signal is known — is absent from the code,
which never reads `engagementWeight`, so the claimed total `2.65` differs. -/
theorem scoreItems_engagement_missing :
    (scoreItems ⟨none, none, none⟩ [⟨"h", ["A"], 1⟩]).map (fun y => y.score) =
      [5 / 2] ∧
    (5 : ℚ) / 2 ≠ (1 : ℚ) * 2 + (1 / 2) * 1 + (3 / 10) * (1 / 2) := by
  constructor
  · show [(scoreItem 2 1 ⟨"h", ["A"], 1⟩).score] = [(5 : ℚ) / 2]
    norm_num [scoreItem]
  · norm_num

/-- **C9.** On an empty input batch the whole pipeline returns the empty
ranked sequence and signals no error (the `Option` stays `some`). -/
theorem consolidateNews_empty (threshold : ℚ) (scoring : ScoringConfig)
    (maxItems : Int) :
    consolidateNews threshold scoring maxItems [] = some [] := by
  show some (jsSliceTo maxItems (scoreItems scoring [])) = some []
  rw [show scoreItems scoring [] = [] from rfl]
  simp only [jsSliceTo, List.take_nil]
